import Mathlib

/-
Verification of the ledger and inventory engine of the inverter-dashboard
repository (src/database.py and the ledger view of src/main.py).

Modelling conventions:
* Each worksheet (pandas DataFrame) is a Lean list of records; row order is
  the sheet order (pandas concat appends, filters keep order).
* Monetary amounts and quantities, floats in the source, are modelled as
  exact rationals; every operation the claims touch uses only addition,
  subtraction, max and comparisons, which floats and rationals agree on
  over the integral values exercised here.
* Finding a row by id (df.index[df[...] == x].tolist() followed by taking
  index 0) is modelled by updating the first matching list element.
* pandas sort_values is modelled as a stable insertion sort; no proved
  property depends on the order of tied keys.
-/

set_option allowUnsafeReducibility true

attribute [local semireducible] Rat.add Rat.sub Rat.mul Rat.ofScientific

namespace InverterDash

/-- Lowercase an ASCII letter, as Python str.lower does on the ASCII
names this repository stores. -/
def lowerChar (c : Char) : Char :=
  if 'A' ≤ c ∧ c ≤ 'Z' then Char.ofNat (c.toNat + 32) else c

/-- Python str.lower restricted to ASCII. -/
def asciiLower (s : String) : String := String.mk (s.data.map lowerChar)

/-- The whitespace characters Python str.strip removes. -/
def isWsChar (c : Char) : Bool :=
  c == ' ' || c == '\t' || c == '\n' || c == '\r' || c == '\x0b' || c == '\x0c'

/-- Python str.strip. -/
def trimWs (s : String) : String :=
  String.mk (((s.data.dropWhile isWsChar).reverse.dropWhile isWsChar).reverse)

/-- Whether the first character list begins with the second. -/
def listStartsWith : List Char → List Char → Bool
  | _, [] => true
  | [], _ :: _ => false
  | c :: cs, d :: ds => c == d && listStartsWith cs ds

/-- Python str.startswith. -/
def strStartsWith (s pre : String) : Bool := listStartsWith s.data pre.data

/-- Python str.split on a single separator character; an empty string
yields one empty component. -/
def splitOnChar (sep : Char) (l : List Char) : List (List Char) :=
  l.foldr
    (fun c acc =>
      if c == sep then [] :: acc
      else
        match acc with
        | g :: gs => (c :: g) :: gs
        | [] => [[c]])
    [[]]

/-- Numeric value of a decimal digit string. -/
def digitsToNat (l : List Char) : Nat :=
  l.foldl (fun a c => a * 10 + (c.toNat - 48)) 0

/-- Code-point lexicographic order on character lists, the order Python
and pandas compare strings with. -/
def listLexLe : List Char → List Char → Bool
  | [], _ => true
  | _ :: _, [] => false
  | a :: as, b :: bs =>
    if a.toNat = b.toNat then listLexLe as bs else decide (a.toNat < b.toNat)

/-- Python string comparison s less-or-equal t. -/
def strLeB (s t : String) : Bool := listLexLe s.data t.data

/-- A calendar date, the result of datetime.strptime with format Y-m-d. -/
structure Date where
  y : Nat
  m : Nat
  d : Nat
deriving DecidableEq, Repr

/-- Strict chronological order on dates. -/
def dateLtB (a b : Date) : Bool :=
  if a.y ≠ b.y then decide (a.y < b.y)
  else if a.m ≠ b.m then decide (a.m < b.m)
  else decide (a.d < b.d)

/-- Gregorian leap-year test, as validated by Python datetime. -/
def isLeap (y : Nat) : Bool :=
  y % 4 == 0 && (y % 100 != 0 || y % 400 == 0)

/-- Number of days of month m in year y, as validated by Python datetime. -/
def daysInMonth (y m : Nat) : Nat :=
  if m = 2 then (if isLeap y then 29 else 28)
  else if m = 4 ∨ m = 6 ∨ m = 9 ∨ m = 11 then 30
  else 31

/-- True when the character list is nonempty and all decimal digits. -/
def allDigits (l : List Char) : Bool :=
  !l.isEmpty && l.all Char.isDigit

/-- datetime.strptime(s, Y-m-d pattern) returning a date on success.
The pattern demands a 4-digit year, a 1-2 digit month in 1..12 and a
1-2 digit day in 1..31, the constructor then checks the day against the
month length; any other shape raises, modelled as none. -/
def parseDate (s : String) : Option Date :=
  match splitOnChar '-' s.data with
  | [ys, ms, ds] =>
    if ys.length = 4 ∧ allDigits ys ∧
       allDigits ms ∧ 1 ≤ ms.length ∧ ms.length ≤ 2 ∧
       allDigits ds ∧ 1 ≤ ds.length ∧ ds.length ≤ 2 then
      let y := digitsToNat ys
      let m := digitsToNat ms
      let d := digitsToNat ds
      if 1 ≤ y ∧ 1 ≤ m ∧ m ≤ 12 ∧ 1 ≤ d ∧ d ≤ daysInMonth y m then
        some ⟨y, m, d⟩
      else none
    else none
  | _ => none

/-- Left-pad a string with zeros to a minimum width. -/
def padZeros (width : Nat) (s : String) : String :=
  String.mk (List.replicate (width - s.length) '0') ++ s

/-- str of a Python date: ISO form with zero-padded fields. -/
def dateToString (d : Date) : String :=
  padZeros 4 (toString d.y) ++ "-" ++ padZeros 2 (toString d.m) ++ "-" ++ padZeros 2 (toString d.d)

/-- Replace the first element satisfying p by its image under f, as the
source does by locating df.index[...][0] and assigning at that index. -/
def updateFirst (p : α → Bool) (f : α → α) : List α → List α
  | [] => []
  | a :: as => if p a then f a :: as else a :: updateFirst p f as

/-- _get_next_id: 1 for an empty table, otherwise the maximum id plus 1. -/
def nextId (ids : List Int) : Int :=
  match ids with
  | [] => 1
  | x :: xs => xs.foldl max x + 1

/-- A row of the Repairs worksheet (schema of add_repair). -/
structure Repair where
  id : Int
  client_name : String
  inverter_model : String
  issue : String
  status : String
  phone_number : String
  created_at : String
  service_cost : ℚ
  parts_cost : ℚ
  total_cost : ℚ
  used_parts : String
  parts_data : String
  assigned_to : Option String
  start_date : String
  due_date : Option String
  completion_date : Option String
  is_late : Bool
deriving DecidableEq, Repr

/-- A row of the Inventory worksheet. -/
structure Item where
  id : Int
  item_name : String
  category : String
  import_date : String
  quantity : ℚ
  cost_price : ℚ
  selling_price : ℚ
deriving DecidableEq, Repr

/-- A row of the Ledger worksheet. -/
structure LedgerEntry where
  id : Int
  party_name : String
  date : String
  description : String
  debit : ℚ
  credit : ℚ
deriving DecidableEq, Repr

/-- A row of the Sales worksheet; the union of the sell_item schema and the
extended record_invoice schema, absent cells modelled as none. -/
structure Sale where
  id : Int
  invoice_id : Option String
  item_id : Option Int
  customer_name : Option String
  item_name : String
  quantity_sold : ℚ
  sale_price : ℚ
  return_quantity : Option ℚ
  total_amount : Option ℚ
  sale_date : String
deriving DecidableEq, Repr

/-- A row of the Customers worksheet. -/
structure Customer where
  customer_id : String
  name : String
  city : String
  phone : String
  opening_balance : ℚ
  address : String
  nic : String
deriving DecidableEq, Repr

/-- One element of the parts_list argument of close_job and
update_repair_job: an inventory id and a consumed quantity. -/
structure Part where
  id : Int
  qty : ℚ
deriving DecidableEq, Repr

/-- One row of the items_df argument of record_invoice. -/
structure InvLine where
  name : String
  qty : ℚ
  rate : ℚ
  retQty : ℚ
  total : ℚ
deriving DecidableEq, Repr

/-- The worksheets the verified operations touch. -/
structure DB where
  repairs : List Repair
  inventory : List Item
  ledger : List LedgerEntry
  sales : List Sale
  customers : List Customer
deriving DecidableEq, Repr

/-- add_ledger_entry: append a row with a fresh id; a missing or empty
date falls back to today. -/
def addLedgerEntry (db : DB) (partyName description : String) (debit credit : ℚ)
    (dateVal : Option String) (todayStr : String) : DB :=
  let d := match dateVal with
    | none => todayStr
    | some s => if s = "" then todayStr else s
  { db with ledger := db.ledger ++
      [{ id := nextId (db.ledger.map (·.id)), party_name := partyName,
         date := d, description := description, debit := debit, credit := credit }] }

/-- delete_ledger_entry: drop every ledger row with the given id. -/
def deleteLedgerEntry (db : DB) (entryId : Int) : DB :=
  { db with ledger := db.ledger.filter (fun e => e.id ≠ entryId) }

/-- The stock-deduction loop shared verbatim by close_job and
update_repair_job: for each part, the first inventory row with that id has
its quantity replaced by max 0 (quantity - qty). -/
def deductParts (pl : List Part) (inv : List Item) : List Item :=
  pl.foldl
    (fun acc part =>
      updateFirst (fun it => it.id == part.id)
        (fun it => { it with quantity := max 0 (it.quantity - part.qty) }) acc)
    inv

/-- The lateness flag computed by close_job: true exactly when the due
date is present, parses with the Y-m-d pattern, and the completion date is
strictly after it. -/
def lateFlag (dueDate : Option String) (completion : Date) : Bool :=
  match dueDate with
  | none => false
  | some s =>
    match parseDate s with
    | some d => dateLtB d completion
    | none => false

/-- The per-row assignments close_job makes: costs, parts strings, status
Delivered, the lateness flag and the completion date. -/
def closedJobRow (serviceCost partsCost totalCost : ℚ)
    (usedPartsStr partsDataJson : String) (isLate : Bool)
    (completionDate : String) (j : Repair) : Repair :=
  { j with
    service_cost := serviceCost, parts_cost := partsCost,
    total_cost := totalCost, used_parts := usedPartsStr,
    parts_data := partsDataJson, status := "Delivered",
    is_late := isLate, completion_date := some completionDate }

/-- The per-row assignments update_repair_job makes: costs, parts strings
and the new status; lateness and completion date untouched. -/
def updatedJobRow (serviceCost partsCost totalCost : ℚ)
    (usedPartsStr partsDataJson newStatus : String) (j : Repair) : Repair :=
  { j with
    service_cost := serviceCost, parts_cost := partsCost,
    total_cost := totalCost, used_parts := usedPartsStr,
    parts_data := partsDataJson, status := newStatus }

/-- close_job: update the repair row (costs, parts strings, status
Delivered, is_late, completion date), post one ledger debit of total_cost
to the client, then run the clamped stock deduction. The df.empty guard of
the source is subsumed by the failing find on an empty list. -/
def closeJob (db : DB) (repairId : Int) (serviceCost partsCost totalCost : ℚ)
    (usedPartsStr : String) (partsList : List Part) (partsDataJson : String)
    (today : Date) : DB :=
  match db.repairs.find? (fun j => j.id == repairId) with
  | none => db
  | some job =>
    let isLate := lateFlag job.due_date today
    let repairs2 := updateFirst (fun j => j.id == repairId)
      (closedJobRow serviceCost partsCost totalCost usedPartsStr partsDataJson
        isLate (dateToString today))
      db.repairs
    let desc := "Repair Job #" ++ toString repairId ++ " - " ++ job.inverter_model
    let db1 := { db with repairs := repairs2 }
    let db2 := addLedgerEntry db1 job.client_name desc totalCost 0
      (some (dateToString today)) (dateToString today)
    { db2 with inventory := deductParts partsList db2.inventory }

/-- update_repair_job: a Delivered status is redirected to close_job;
otherwise the repair row is updated in place (no is_late or completion
date) and the same clamped stock deduction runs. -/
def updateRepairJob (db : DB) (repairId : Int) (serviceCost partsCost totalCost : ℚ)
    (usedPartsStr : String) (partsList : List Part) (newStatus : String)
    (partsDataJson : String) (today : Date) : DB :=
  if newStatus = "Delivered" then
    closeJob db repairId serviceCost partsCost totalCost usedPartsStr partsList partsDataJson today
  else
    match db.repairs.find? (fun j => j.id == repairId) with
    | none => db
    | some _ =>
      let repairs2 := updateFirst (fun j => j.id == repairId)
        (updatedJobRow serviceCost partsCost totalCost usedPartsStr partsDataJson newStatus)
        db.repairs
      let db1 := { db with repairs := repairs2 }
      { db1 with inventory := deductParts partsList db1.inventory }

/-- add_repair: append a new repair row with a fresh id, zeroed costs and
status as given (defaulting to Pending at the call sites). -/
def addRepair (db : DB) (clientName model issue status phone : String)
    (assignedTo dueDate : Option String) (createdAt startDate : String) : DB :=
  { db with repairs := db.repairs ++
      [{ id := nextId (db.repairs.map (·.id)), client_name := clientName,
         inverter_model := model, issue := issue, status := status,
         phone_number := phone, created_at := createdAt,
         service_cost := 0, parts_cost := 0, total_cost := 0,
         used_parts := "", parts_data := "[]", assigned_to := assignedTo,
         start_date := startDate, due_date := dueDate,
         completion_date := none, is_late := false }] }

/-- sell_item: hard-fail on empty inventory, unknown item, or insufficient
stock; otherwise decrement the stock (unclamped, guarded by the check) and
append one Sales row. Returns the state with the (success, message) pair. -/
def sellItem (db : DB) (itemId : Int) (qtyToSell : ℚ) (nowStr : String) :
    DB × Bool × String :=
  if db.inventory.isEmpty then (db, false, "Inventory empty")
  else
    match db.inventory.find? (fun it => it.id == itemId) with
    | none => (db, false, "Item not found")
    | some item =>
      if item.quantity < qtyToSell then (db, false, "Insufficient stock")
      else
        let inv2 := updateFirst (fun it => it.id == itemId)
          (fun it => { it with quantity := it.quantity - qtyToSell }) db.inventory
        let sale : Sale :=
          { id := nextId (db.sales.map (·.id)), invoice_id := none,
            item_id := some itemId, customer_name := none,
            item_name := item.item_name, quantity_sold := qtyToSell,
            sale_price := item.selling_price, return_quantity := none,
            total_amount := none, sale_date := nowStr }
        ({ db with inventory := inv2, sales := db.sales ++ [sale] },
         true, "Item sold successfully")

/-- int(s) on the numeric suffix of an invoice id: digit strings convert,
non-numeric ones raise, modelled as none (the surrounding whitespace or
sign Python int would also accept never occurs in the ids this code
writes, which are digit-only suffixes). -/
def parseIntStr (l : List Char) : Option Nat :=
  if allDigits l then some (digitsToNat l) else none

/-- The numeric suffix of an invoice id: the last component of the split
on the dash, converted by int. -/
def suffixNum (s : String) : Option Nat :=
  parseIntStr ((splitOnChar '-' s.data).getLastD s.data)

/-- The invoice-id marker of a year, INV- then the year then a dash. -/
def yearPfx (year : Int) : String := "INV-" ++ toString year ++ "-"

/-- The non-null invoice ids of the Sales table that start with the
marker of the given year. -/
def currentYearInvoices (sales : List Sale) (year : Int) : List String :=
  (sales.filterMap (·.invoice_id)).filter (fun s => strStartsWith s (yearPfx year))

/-- get_next_invoice_number: filter invoice ids of the current year,
increment the maximum numeric suffix, pad to three digits; an empty table,
no match, or any conversion failure yields the 001 default. -/
def getNextInvoiceNumber (sales : List Sale) (year : Int) : String :=
  if sales.isEmpty then yearPfx year ++ "001"
  else
    let cur := currentYearInvoices sales year
    if cur.isEmpty then yearPfx year ++ "001"
    else
      match cur.mapM suffixNum with
      | none => yearPfx year ++ "001"
      | some nums => yearPfx year ++ padZeros 3 (toString (nums.foldl max 0 + 1))

/-- record_invoice: append one Sales row per line (ids allocated from the
next free id), apply the unclamped net stock change (qty - return) to the
first case-insensitively name-matched inventory row, then post exactly one
ledger debit of the grand total to the customer. -/
def recordInvoice (db : DB) (invoiceId customerName : String)
    (items : List InvLine) (freight misc grandTotal : ℚ)
    (nowStr : String) (today : Date) : DB :=
  let startId := nextId (db.sales.map (·.id))
  let newRows : List Sale := items.enum.map (fun p =>
    { id := startId + (p.1 : Int), invoice_id := some invoiceId,
      item_id := none, customer_name := some customerName,
      item_name := p.2.name, quantity_sold := p.2.qty, sale_price := p.2.rate,
      return_quantity := some p.2.retQty, total_amount := some p.2.total,
      sale_date := nowStr })
  let inv2 := items.foldl
    (fun acc line =>
      updateFirst (fun it => asciiLower it.item_name == asciiLower (trimWs line.name))
        (fun it => { it with quantity := it.quantity - (line.qty - line.retQty) }) acc)
    db.inventory
  let db1 := { db with sales := db.sales ++ newRows, inventory := inv2 }
  let desc := "Invoice #" ++ invoiceId ++
    (if 0 < freight ∨ 0 < misc then " (Inc. Freight/Misc)" else "")
  addLedgerEntry db1 customerName desc grandTotal 0
    (some (dateToString today)) (dateToString today)

/-- A row of the per-party ledger view built by get_ledger_entries; the
synthetic opening-balance row has no id. -/
structure LRow where
  id : Option Int
  date : String
  description : String
  debit : ℚ
  credit : ℚ
deriving DecidableEq, Repr

/-- The opening balance get_ledger_entries reads from the Customers sheet:
that of the first customer whose lowercased name equals the lowercased
party name, 0 when there is none. -/
def openingOf (db : DB) (partyName : String) : ℚ :=
  match db.customers.find? (fun c => asciiLower c.name == asciiLower partyName) with
  | none => 0
  | some c => c.opening_balance

/-- The ledger rows of a party, in sheet (insertion) order, as filtered by
get_ledger_entries; note the source applies no sort here. -/
def partyEntries (db : DB) (partyName : String) : List LedgerEntry :=
  db.ledger.filter (fun e => e.party_name == partyName)

/-- Projection of a stored ledger row to the view schema of
get_ledger_entries. -/
def toLRow (e : LedgerEntry) : LRow :=
  { id := some e.id, date := e.date, description := e.description,
    debit := e.debit, credit := e.credit }

/-- The synthetic opening-balance view row get_ledger_entries prepends:
a debit when the opening balance is positive, a credit of the absolute
value when negative. -/
def obRow (ob : ℚ) : LRow :=
  { id := none, date := "Old Khata", description := "Opening Balance (B/F)",
    debit := if ob > 0 then ob else 0,
    credit := if ob < 0 then |ob| else 0 }

/-- get_ledger_entries: the ledger rows of the party in sheet order,
preceded by the synthetic opening-balance row when the opening balance is
nonzero. -/
def getLedgerEntries (db : DB) (partyName : String) : List LRow :=
  let rows := (partyEntries db partyName).map toLRow
  let ob := openingOf db partyName
  if ob ≠ 0 then obRow ob :: rows else rows

/-- The Balance column of the ledger view in main.py: the running value of
cumulative debit minus cumulative credit down the displayed rows. -/
def runBalAux : List LRow → ℚ → List ℚ
  | [], _ => []
  | r :: rs, acc => (acc + r.debit - r.credit) :: runBalAux rs (acc + r.debit - r.credit)

/-- Running balances of a displayed ledger, starting from zero. -/
def runBal (rows : List LRow) : List ℚ := runBalAux rows 0

/-- Relation ordering repairs by created_at descending, the order
get_all_repairs produces. -/
def createdDesc (a b : Repair) : Prop := strLeB b.created_at a.created_at = true

instance : DecidableRel createdDesc := fun a b =>
  inferInstanceAs (Decidable (strLeB b.created_at a.created_at = true))

/-- get_all_repairs: every repair row, sorted by created_at descending. -/
def getAllRepairs (db : DB) : List Repair :=
  db.repairs.insertionSort createdDesc

/-- get_active_repairs: the non-Delivered rows of get_all_repairs. -/
def getActiveRepairs (db : DB) : List Repair :=
  (getAllRepairs db).filter (fun j => j.status ≠ "Delivered")

/-- Debit minus credit summed over a list of view rows. -/
def sumDC (l : List LRow) : ℚ :=
  (l.map (fun r => r.debit - r.credit)).sum

/-- Number of synthetic rows get_ledger_entries prepends: one when the
opening balance is nonzero, none otherwise. -/
def openOff (db : DB) (partyName : String) : Nat :=
  if openingOf db partyName ≠ 0 then 1 else 0

/-- The Balance cell displayed on the view row of a given stored ledger
entry: the running balance at the position of that entry in the displayed
table. -/
def displayedBalanceAfter (db : DB) (partyName : String) (entryId : Int) : Option ℚ :=
  let rows := getLedgerEntries db partyName
  (((rows.zip (runBal rows)).find? (fun rb => rb.1.id == some entryId)).map (·.2))

/-- Order on ledger entries by (date, id) ascending. Stated by the spec as
the display order of the ledger view; used to compare the view against it. -/
def dateIdAsc (a b : LedgerEntry) : Prop :=
  (if a.date = b.date then a.id ≤ b.id else strLeB a.date b.date = true)

instance : DecidableRel dateIdAsc := fun a b => by
  unfold dateIdAsc
  infer_instance

/-- Modelled from the spec sentence of C3: the running balance after
entry number i of the party, when the entries are sorted ascending by
(date, id): the opening balance plus the debits minus the credits of the
first i sorted entries up to and including the given one. -/
def claimBalanceAfterSorted (db : DB) (partyName : String) (entryId : Int) : Option ℚ :=
  let b0 := openingOf db partyName
  let sorted := (partyEntries db partyName).insertionSort dateIdAsc
  match sorted.findIdx? (fun e => e.id == entryId) with
  | none => none
  | some i =>
    some (b0 + ((sorted.take (i + 1)).map (·.debit)).sum
             - ((sorted.take (i + 1)).map (·.credit)).sum)

/-- Order on repairs by due_date ascending, a missing due date sorting as
the empty string. Stated by the spec as the order of the active-job list;
used to compare the query against it. -/
def dueAsc (a b : Repair) : Prop :=
  strLeB (a.due_date.getD "") (b.due_date.getD "") = true

instance : DecidableRel dueAsc := fun a b => by
  unfold dueAsc
  infer_instance

/-- Modelled from the spec sentence of C8: the jobs whose status is not
Delivered, ordered by due_date ascending (soonest-due first). -/
def activeJobsBySpec (db : DB) : List Repair :=
  (db.repairs.filter (fun j => j.status ≠ "Delivered")).insertionSort dueAsc

/-- The cost invariant of C2: every stored repair row has
total_cost equal to service_cost plus parts_cost. -/
@[reducible] def costConsistent (db : DB) : Prop :=
  ∀ j ∈ db.repairs, j.total_cost = j.service_cost + j.parts_cost

/-- The empty data store. -/
def emptyDB : DB := ⟨[], [], [], [], []⟩

/-- Claim C1 counterexample state: a single inventory item with three units in
stock. -/
def dbRecNeg : DB :=
  { emptyDB with inventory := [⟨1, "Fan Belt", "Parts", "2024-01-01", 3, 100, 500⟩] }

/-- Claim C1 witness state: one job, one ledger row and one item with three
units in stock. -/
def dbClampW : DB :=
  { emptyDB with
    repairs := [⟨1, "Ali", "X100", "broken", "Pending", "03", "2024-01-01 09:00:00",
                 0, 0, 0, "", "[]", none, "2024-01-01", some "2024-01-10", none, false⟩],
    inventory := [⟨1, "Fan Belt", "Parts", "2024-01-01", 3, 100, 500⟩] }

/-- Claim C2 counterexample and witness state: a single pending job with zeroed
costs. -/
def dbCost : DB :=
  { emptyDB with
    repairs := [⟨1, "Ali", "X100", "broken", "Pending", "03", "2024-01-01 09:00:00",
                 0, 0, 0, "", "[]", none, "2024-01-01", none, none, false⟩] }

/-- Claim C3 counterexample state: two ledger entries of the same party whose
sheet order disagrees with their date order. -/
def dbLedgerOrd : DB :=
  { emptyDB with
    ledger := [⟨1, "Ali", "2024-02-01", "Inverter sale", 100, 0⟩,
               ⟨2, "Ali", "2024-01-01", "Charger sale", 50, 0⟩] }

/-- Claim C3 witness state: a customer with a negative opening balance and two
of their ledger entries. -/
def dbLedgerW : DB :=
  { emptyDB with
    ledger := [⟨1, "Ali", "2024-01-01", "Inverter sale", 100, 0⟩,
               ⟨2, "Ali", "2024-01-05", "Cash Received", 0, 30⟩],
    customers := [⟨"C001", "ali", "Karachi", "0300", -70, "", ""⟩] }

/-- Claim C4 state: a job already Delivered, with the ledger debit of its first
closure posted. -/
def dbDelivered : DB :=
  { emptyDB with
    repairs := [⟨1, "Ali", "X100", "broken", "Delivered", "03", "2024-01-01 09:00:00",
                 500, 200, 700, "", "[]", none, "2024-01-01", some "2024-01-10",
                 some "2024-01-15", true⟩],
    ledger := [⟨1, "Ali", "2024-01-15", "Repair Job #1 - X100", 700, 0⟩] }

/-- Claim C5 witness state: one item with three units in stock. -/
def dbSell : DB :=
  { emptyDB with inventory := [⟨1, "Fan Belt", "Parts", "2024-01-01", 3, 100, 500⟩] }

/-- Claim C6 witness state: one pending job due on 2024-01-10. -/
def dbLate : DB :=
  { emptyDB with
    repairs := [⟨1, "Ali", "X100", "broken", "Pending", "03", "2024-01-01 09:00:00",
                 0, 0, 0, "", "[]", none, "2024-01-01", some "2024-01-10", none, false⟩] }

/-- Claim C7 witness state: two invoices of year 2026 with suffixes 001 and 007. -/
def dbInvoices : DB :=
  { emptyDB with
    sales := [⟨1, some "INV-2026-001", none, some "Bob", "Fan Belt", 1, 500, some 0, some 500, "2026-01-02"⟩,
              ⟨2, some "INV-2026-007", none, some "Bob", "Fan Belt", 1, 500, some 0, some 500, "2026-01-03"⟩] }

/-- Claim C8 counterexample state: two active jobs whose creation order reverses
their due-date order, and one delivered job. -/
def dbActive : DB :=
  { emptyDB with
    repairs := [⟨1, "A", "M1", "i", "Pending", "", "2024-01-01 08:00:00",
                 0, 0, 0, "", "[]", none, "2024-01-01", some "2024-01-05", none, false⟩,
                ⟨2, "B", "M2", "i", "Pending", "", "2024-01-02 08:00:00",
                 0, 0, 0, "", "[]", none, "2024-01-02", some "2024-12-31", none, false⟩,
                ⟨3, "C", "M3", "i", "Delivered", "", "2024-01-03 08:00:00",
                 0, 0, 0, "", "[]", none, "2024-01-03", none, some "2024-01-04", false⟩] }

/-- Claim C9 witness state: one in-progress job and one item with three units in
stock. -/
def dbParts : DB :=
  { emptyDB with
    repairs := [⟨1, "Ali", "X100", "broken", "Pending", "03", "2024-01-01 09:00:00",
                 0, 0, 0, "", "[]", none, "2024-01-01", none, none, false⟩],
    inventory := [⟨7, "Capacitor", "Parts", "2024-01-01", 3, 50, 80⟩] }

/-- Claim C10 state: ledger ids 1, 2 and 5 (3 and 4 were deleted earlier). -/
def dbIds : DB :=
  { emptyDB with
    ledger := [⟨1, "Ali", "2024-01-01", "a", 10, 0⟩,
               ⟨2, "Ali", "2024-01-02", "b", 10, 0⟩,
               ⟨5, "Ali", "2024-01-05", "c", 10, 0⟩] }

/-- Unfolding equation of listLexLe at two cons cells. -/
theorem listLexLe_cons (a b : Char) (as bs : List Char) :
    listLexLe (a :: as) (b :: bs) =
      if a.toNat = b.toNat then listLexLe as bs else decide (a.toNat < b.toNat) := rfl

/-- The code-point order on character lists is total. -/
theorem listLexLe_total : ∀ x y : List Char, listLexLe x y = true ∨ listLexLe y x = true := by
  intro x
  induction x with
  | nil => intro y; left; rfl
  | cons a as ih =>
    intro y
    cases y with
    | nil => right; rfl
    | cons b bs =>
      rw [listLexLe_cons, listLexLe_cons]
      by_cases h : a.toNat = b.toNat
      · rw [if_pos h, if_pos h.symm]
        exact ih bs
      · have h2 : ¬ b.toNat = a.toNat := fun e => h e.symm
        rw [if_neg h, if_neg h2]
        rcases Nat.lt_or_ge a.toNat b.toNat with hlt | hge
        · exact Or.inl (decide_eq_true hlt)
        · exact Or.inr (decide_eq_true (lt_of_le_of_ne hge h2))

/-- The code-point order on character lists is transitive. -/
theorem listLexLe_trans :
    ∀ x y z : List Char, listLexLe x y = true → listLexLe y z = true → listLexLe x z = true := by
  intro x
  induction x with
  | nil => intro y z _ _; rfl
  | cons a as ih =>
    intro y z h1 h2
    cases y with
    | nil => simp [listLexLe] at h1
    | cons b bs =>
      cases z with
      | nil => simp [listLexLe] at h2
      | cons c cs =>
        rw [listLexLe_cons] at h1 h2 ⊢
        by_cases hab : a.toNat = b.toNat
        · rw [if_pos hab] at h1
          by_cases hbc : b.toNat = c.toNat
          · rw [if_pos hbc] at h2
            rw [if_pos (hab.trans hbc)]
            exact ih bs cs h1 h2
          · rw [if_neg hbc] at h2
            have hbc2 : b.toNat < c.toNat := of_decide_eq_true h2
            have hac : a.toNat < c.toNat := hab ▸ hbc2
            rw [if_neg (Nat.ne_of_lt hac)]
            exact decide_eq_true hac
        · rw [if_neg hab] at h1
          have hab2 : a.toNat < b.toNat := of_decide_eq_true h1
          by_cases hbc : b.toNat = c.toNat
          · have hac : a.toNat < c.toNat := hbc ▸ hab2
            rw [if_neg (Nat.ne_of_lt hac)]
            exact decide_eq_true hac
          · rw [if_neg hbc] at h2
            have hbc2 : b.toNat < c.toNat := of_decide_eq_true h2
            have hac : a.toNat < c.toNat := hab2.trans hbc2
            rw [if_neg (Nat.ne_of_lt hac)]
            exact decide_eq_true hac

instance : IsTotal Repair createdDesc :=
  ⟨fun a b => listLexLe_total b.created_at.data a.created_at.data⟩

instance : IsTrans Repair createdDesc :=
  ⟨fun _ _ _ h1 h2 => listLexLe_trans _ _ _ h2 h1⟩

/-- An element of updateFirst p f l is an old element, or the image under
f of the first element satisfying p. -/
theorem mem_updateFirst {α} {p : α → Bool} {f : α → α} {l : List α} {x : α}
    (hx : x ∈ updateFirst p f l) : x ∈ l ∨ ∃ a, l.find? p = some a ∧ x = f a := by
  induction l with
  | nil => simp [updateFirst] at hx
  | cons a t ih =>
    by_cases h : p a
    · rw [updateFirst, if_pos h] at hx
      rcases List.mem_cons.mp hx with hfa | ht
      · exact Or.inr ⟨a, List.find?_cons_of_pos t h, hfa⟩
      · exact Or.inl (List.mem_cons_of_mem a ht)
    · rw [updateFirst, if_neg h] at hx
      rcases List.mem_cons.mp hx with hxa | ht
      · exact Or.inl (hxa ▸ List.mem_cons_self a t)
      · rcases ih ht with hm | ⟨b, hb, hxb⟩
        · exact Or.inl (List.mem_cons_of_mem a hm)
        · refine Or.inr ⟨b, ?_, hxb⟩
          rw [List.find?_cons_of_neg t h]
          exact hb

/-- When f preserves the predicate, finding after updateFirst returns the
image of the original find. -/
theorem find?_updateFirst_same {α} (p : α → Bool) (f : α → α)
    (hf : ∀ a, p (f a) = p a) (l : List α) :
    (updateFirst p f l).find? p = (l.find? p).map f := by
  induction l with
  | nil => rfl
  | cons a t ih =>
    by_cases h : p a
    · rw [updateFirst, if_pos h, List.find?_cons_of_pos _ ((hf a).trans (by simp [h])),
        List.find?_cons_of_pos t h]
      rfl
    · rw [updateFirst, if_neg h, List.find?_cons_of_neg _ h, List.find?_cons_of_neg t h, ih]

/-- Updating the first element matched by q does not move the first
element matched by p when the two predicates exclude each other. -/
theorem find?_updateFirst_other {α} (p q : α → Bool) (f : α → α)
    (hq : ∀ a, q a = true → p a = false) (hf : ∀ a, p (f a) = p a) (l : List α) :
    (updateFirst q f l).find? p = l.find? p := by
  induction l with
  | nil => rfl
  | cons a t ih =>
    by_cases h : q a
    · have hpa : p a = false := hq a (by simpa using h)
      rw [updateFirst, if_pos h, List.find?_cons_of_neg _ (by simp [hf a, hpa]),
        List.find?_cons_of_neg t (by simp [hpa])]
    · by_cases hp : p a
      · rw [updateFirst, if_neg h, List.find?_cons_of_pos _ hp, List.find?_cons_of_pos t hp]
      · rw [updateFirst, if_neg h, List.find?_cons_of_neg _ hp, List.find?_cons_of_neg t hp, ih]

/-- Unfolding of the stock-deduction loop by one part. -/
theorem deductParts_cons (pa : Part) (t : List Part) (inv : List Item) :
    deductParts (pa :: t) inv =
      deductParts t (updateFirst (fun it => it.id == pa.id)
        (fun it => { it with quantity := max 0 (it.quantity - pa.qty) }) inv) := rfl

/-- An inventory id referenced by no part of the list is untouched by the
stock-deduction loop. -/
theorem find?_deductParts_absent (pl : List Part) (x : Int) (inv : List Item)
    (h : pl.filter (fun q => q.id == x) = []) :
    (deductParts pl inv).find? (fun it => it.id == x) =
      inv.find? (fun it => it.id == x) := by
  induction pl generalizing inv with
  | nil => rfl
  | cons pa t ih =>
    rw [List.filter_cons] at h
    by_cases hpa : (pa.id == x) = true
    · simp [hpa] at h
    · rw [if_neg (by simpa using hpa)] at h
      have step := find?_updateFirst_other (fun it : Item => it.id == x)
        (fun it : Item => it.id == pa.id)
        (fun it => { it with quantity := max 0 (it.quantity - pa.qty) })
        (fun a ha => by
          have hid : a.id = pa.id := by simpa using ha
          show (a.id == x) = false
          rw [hid]
          simpa using hpa)
        (fun a => rfl) inv
      rw [deductParts_cons, ih _ h]
      exact step

/-- When exactly one part of the list references an inventory id, the
stock-deduction loop applies exactly the clamped decrement of that part to the
first inventory row with that id. -/
theorem find?_deductParts_unique (pl : List Part) (part : Part) (inv : List Item)
    (h : pl.filter (fun q => q.id == part.id) = [part]) :
    (deductParts pl inv).find? (fun it => it.id == part.id) =
      (inv.find? (fun it => it.id == part.id)).map
        (fun it => { it with quantity := max 0 (it.quantity - part.qty) }) := by
  induction pl generalizing inv with
  | nil => simp at h
  | cons pa t ih =>
    rw [List.filter_cons] at h
    by_cases hpa : (pa.id == part.id) = true
    · rw [if_pos (by simpa using hpa)] at h
      have hpa2 : pa = part := (List.cons.injEq pa _ part []).mp h |>.1
      have ht : t.filter (fun q => q.id == part.id) = [] :=
        ((List.cons.injEq pa _ part []).mp h).2
      subst hpa2
      rw [deductParts_cons, find?_deductParts_absent t _ _ ht]
      exact find?_updateFirst_same (fun it : Item => it.id == pa.id)
        (fun it => { it with quantity := max 0 (it.quantity - pa.qty) })
        (fun a => rfl) inv
    · rw [if_neg (by simpa using hpa)] at h
      have step := find?_updateFirst_other (fun it : Item => it.id == part.id)
        (fun it : Item => it.id == pa.id)
        (fun it => { it with quantity := max 0 (it.quantity - pa.qty) })
        (fun a ha => by
          have hid : a.id = pa.id := by simpa using ha
          show (a.id == part.id) = false
          rw [hid]
          simpa using hpa)
        (fun a => rfl) inv
      rw [deductParts_cons, ih _ h, step]

/-- The stock-deduction loop never produces a negative quantity from
nonnegative ones: every written value is clamped below by zero. -/
theorem deductParts_nonneg (pl : List Part) (inv : List Item)
    (h : ∀ it ∈ inv, 0 ≤ it.quantity) :
    ∀ it ∈ deductParts pl inv, 0 ≤ it.quantity := by
  induction pl generalizing inv with
  | nil => exact h
  | cons pa t ih =>
    rw [deductParts_cons]
    refine ih _ ?_
    intro it hit
    rcases mem_updateFirst hit with hm | ⟨a, _, rfl⟩
    · exact h it hm
    · exact le_max_left 0 _

/-- Indexing into the running-balance column: the cell at position i is
the accumulator plus debit minus credit summed over the first i+1 rows. -/
theorem runBalAux_get? (l : List LRow) (acc : ℚ) (i : Nat) (hi : i < l.length) :
    (runBalAux l acc)[i]? = some (acc + sumDC (l.take (i + 1))) := by
  induction l generalizing acc i with
  | nil => simp at hi
  | cons r rs ih =>
    cases i with
    | zero =>
      simp only [runBalAux, List.getElem?_cons_zero, List.take_succ_cons, List.take_zero]
      have hs : sumDC [r] = r.debit - r.credit := by simp [sumDC]
      rw [hs]
      congr 1
      ring
    | succ i =>
      have hi2 : i < rs.length := Nat.lt_of_succ_lt_succ hi
      simp only [runBalAux, List.getElem?_cons_succ]
      rw [ih _ i hi2, List.take_succ_cons]
      have hs : sumDC (r :: List.take (i + 1) rs) =
          r.debit - r.credit + sumDC (List.take (i + 1) rs) := by
        simp [sumDC]
      rw [hs]
      congr 1
      ring

/-- The running-balance column has one cell per displayed row. -/
theorem runBalAux_length (l : List LRow) (acc : ℚ) :
    (runBalAux l acc).length = l.length := by
  induction l generalizing acc with
  | nil => rfl
  | cons r rs ih =>
    simp only [runBalAux, List.length_cons]
    rw [ih]

/-- Debit minus credit over projected ledger rows splits into the debit
sum minus the credit sum. -/
theorem sumDC_map_toLRow (l : List LedgerEntry) :
    sumDC (l.map toLRow) = (l.map (·.debit)).sum - (l.map (·.credit)).sum := by
  induction l with
  | nil => simp [sumDC]
  | cons e t ih =>
    simp only [List.map_cons, sumDC, List.sum_cons] at ih ⊢
    rw [show (toLRow e).debit - (toLRow e).credit = e.debit - e.credit from rfl] at *
    rw [ih]
    ring

/-- The synthetic opening row contributes exactly the opening balance to
the running balance. -/
theorem obRow_dc (ob : ℚ) (h : ob ≠ 0) : (obRow ob).debit - (obRow ob).credit = ob := by
  unfold obRow
  by_cases hp : ob > 0
  · have hn : ¬ ob < 0 := by linarith
    simp [hp, hn]
  · have hn : ob < 0 := lt_of_le_of_ne (le_of_not_lt hp) h
    have : |ob| = -ob := abs_of_neg hn
    simp [hp, hn, this]

/-- The seed of a left max fold bounds it from below. -/
theorem foldl_max_init_le {α} [LinearOrder α] (l : List α) (a : α) :
    a ≤ l.foldl max a := by
  induction l generalizing a with
  | nil => exact le_refl a
  | cons b t ih => exact le_trans (le_max_left a b) (ih (max a b))

/-- Every element of the list bounds a left max fold from below. -/
theorem mem_le_foldl_max {α} [LinearOrder α] (l : List α) (a : α) :
    ∀ x ∈ l, x ≤ l.foldl max a := by
  induction l generalizing a with
  | nil => intro x hx; simp at hx
  | cons b t ih =>
    intro x hx
    rcases List.mem_cons.mp hx with rfl | hxt
    · exact le_trans (le_max_right a x) (foldl_max_init_le t (max a x))
    · exact ih (max a b) x hxt

/-- A left max fold is bounded by any common upper bound of its seed and
elements. -/
theorem foldl_max_le {α} [LinearOrder α] (l : List α) (a b : α)
    (ha : a ≤ b) (h : ∀ x ∈ l, x ≤ b) : l.foldl max a ≤ b := by
  induction l generalizing a with
  | nil => exact ha
  | cons c t ih =>
    exact ih (max a c) (max_le ha (h c (List.mem_cons_self c t)))
      (fun x hx => h x (List.mem_cons_of_mem c hx))

/-- A left max fold is its seed or one of the elements. -/
theorem foldl_max_mem {α} [LinearOrder α] (l : List α) (a : α) :
    l.foldl max a = a ∨ l.foldl max a ∈ l := by
  induction l generalizing a with
  | nil => exact Or.inl rfl
  | cons b t ih =>
    rcases ih (max a b) with he | hm
    · rcases le_total a b with hab | hba
      · right
        rw [List.foldl_cons, he, max_eq_right hab]
        exact List.mem_cons_self b t
      · left
        rw [List.foldl_cons, he, max_eq_left hba]
    · exact Or.inr (List.mem_cons_of_mem b hm)

/-- An Option-valued traversal of a nonempty list cannot return an empty
list. -/
theorem mapM_option_ne_nil {α β} (f : α → Option β) (l : List α) (ns : List β)
    (hl : l ≠ []) (h : l.mapM f = some ns) : ns ≠ [] := by
  cases l with
  | nil => exact absurd rfl hl
  | cons a t =>
    rw [List.mapM_cons] at h
    cases hfa : f a with
    | none => rw [hfa] at h; simp at h
    | some b =>
      rw [hfa] at h
      cases ht : t.mapM f with
      | none => rw [ht] at h; simp at h
      | some bs =>
        rw [ht] at h
        intro hn
        subst hn
        simp at h

/-- Claim C5: whenever the requested quantity exceeds the stock of the item
sell_item found, the call returns failure with reason Insufficient stock
and the whole state is returned unchanged, so neither the quantity nor
the Sales table is written. -/
theorem C5_sell_insufficient_stock (db : DB) (itemId : Int) (q : ℚ) (item : Item)
    (nowStr : String)
    (hfind : db.inventory.find? (fun it => it.id == itemId) = some item)
    (hq : item.quantity < q) :
    sellItem db itemId q nowStr = (db, false, "Insufficient stock") := by
  have hne : ¬ db.inventory.isEmpty = true := by
    cases hinv : db.inventory with
    | nil => rw [hinv] at hfind; simp at hfind
    | cons a t => simp
  unfold sellItem
  rw [if_neg hne, hfind]
  exact if_pos hq

/-- Claim C5 witness: selling five units of an item stocked with three fails
with Insufficient stock and changes nothing. -/
theorem C5_witness :
    sellItem dbSell 1 5 "2024-01-01 10:00:00" = (dbSell, false, "Insufficient stock") :=
  C5_sell_insufficient_stock dbSell 1 5 ⟨1, "Fan Belt", "Parts", "2024-01-01", 3, 100, 500⟩
    "2024-01-01 10:00:00" (by decide) (by decide)

/-- Claim C10 counterexample: with ledger ids 1, 2 and 5, deleting the row with
the maximum id 5 and inserting again allocates id 3, not 5, so the claim
that the next insert reuses the deleted maximum id is false. -/
theorem C10_counterexample :
    ((addLedgerEntry (deleteLedgerEntry dbIds 5) "Ali" "d" 10 0
        (some "2024-01-06") "2024-01-06").ledger.map (·.id) = [1, 2, 3]) ∧
      ¬ ∃ e ∈ (addLedgerEntry (deleteLedgerEntry dbIds 5) "Ali" "d" 10 0
        (some "2024-01-06") "2024-01-06").ledger, e.id = 5 := by
  decide

/-- Claim C10 amended: id allocation returns the maximum existing id plus one
(1 on an empty table), so every allocated id is strictly fresh; and after
deleting the rows holding the maximum id m, the next allocation is at
most m, so ids of deleted rows can be reassigned — equality with m holds
exactly when a row with id m-1 remains, not in general. -/
theorem C10_id_allocation (db : DB) (m : Int) (hm : 1 ≤ m)
    (hub : ∀ e ∈ db.ledger, e.id ≤ m) :
    (∀ e ∈ db.ledger, e.id < nextId (db.ledger.map (·.id))) ∧
      nextId ((deleteLedgerEntry db m).ledger.map (·.id)) ≤ m := by
  constructor
  · intro e he
    have hmem : e.id ∈ db.ledger.map (·.id) := List.mem_map_of_mem _ he
    cases hl : db.ledger.map (·.id) with
    | nil => rw [hl] at hmem; simp at hmem
    | cons x xs =>
      rw [hl] at hmem
      show e.id < xs.foldl max x + 1
      rcases List.mem_cons.mp hmem with hex | hmx
      · have := foldl_max_init_le xs x
        omega
      · have := mem_le_foldl_max xs x e.id hmx
        omega
  · have hub2 : ∀ x ∈ (deleteLedgerEntry db m).ledger.map (·.id), x ≤ m - 1 := by
      intro x hx
      obtain ⟨e, he, rfl⟩ := List.mem_map.mp hx
      have he2 := List.mem_filter.mp he
      have hne : e.id ≠ m := by simpa using he2.2
      have hle : e.id ≤ m := hub e he2.1
      omega
    cases hl : (deleteLedgerEntry db m).ledger.map (·.id) with
    | nil =>
      exact hm
    | cons x xs =>
      show xs.foldl max x + 1 ≤ m
      have hx : x ≤ m - 1 := hub2 x (hl ▸ List.mem_cons_self x xs)
      have hxs : ∀ y ∈ xs, y ≤ m - 1 :=
        fun y hy => hub2 y (hl ▸ List.mem_cons_of_mem x hy)
      have := foldl_max_le xs x (m - 1) hx hxs
      omega

/-- Claim C10 witness: in the state with ids 1, 2 and 5 every id is below the
next allocation, and after deleting the max row the next allocation is at
most 5. -/
theorem C10_witness :
    (∀ e ∈ dbIds.ledger, e.id < nextId (dbIds.ledger.map (·.id))) ∧
      nextId ((deleteLedgerEntry dbIds 5).ledger.map (·.id)) ≤ 5 :=
  C10_id_allocation dbIds 5 (by decide) (by decide)

/-- Claim C4 counterexample: on a job already Delivered, update_repair_job with
status Repaired moves it away from Delivered, and a second close_job
posts a second ledger debit — the job is not read-only and the delivery
side-effect bundle fires again. -/
theorem C4_counterexample :
    ((updateRepairJob dbDelivered 1 500 200 700 "" [] "Repaired" "[]"
        ⟨2024, 1, 16⟩).repairs.map (·.status) = ["Repaired"]) ∧
      (closeJob dbDelivered 1 500 200 700 "" [] "[]" ⟨2024, 1, 16⟩).ledger.length = 2 := by
  decide

/-- Claim C4 amended: update_repair_job with status Delivered is redirected to
close_job (delivery always runs the side-effect bundle), but neither
operation inspects the current status: on any existing job — Delivered
included — close_job appends another ledger debit, and update_repair_job
overwrites the status with any non-Delivered value. -/
theorem C4_no_terminal_guard (db : DB) (rid : Int) (s p t : ℚ) (ups : String)
    (pl : List Part) (pdj : String) (today : Date) :
    (updateRepairJob db rid s p t ups pl "Delivered" pdj today =
      closeJob db rid s p t ups pl pdj today) ∧
    ∀ job, db.repairs.find? (fun j => j.id == rid) = some job →
      (closeJob db rid s p t ups pl pdj today).ledger.length = db.ledger.length + 1 ∧
      ∀ ns, ns ≠ "Delivered" →
        ((updateRepairJob db rid s p t ups pl ns pdj today).repairs.find?
          (fun j => j.id == rid)).map (·.status) = some ns := by
  constructor
  · unfold updateRepairJob
    rw [if_pos rfl]
  · intro job hjob
    constructor
    · unfold closeJob
      rw [hjob]
      simp [addLedgerEntry]
    · intro ns hns
      unfold updateRepairJob
      rw [if_neg hns]
      simp only [hjob]
      rw [find?_updateFirst_same (fun j : Repair => j.id == rid)
        (updatedJobRow s p t ups pdj ns) (fun a => rfl) db.repairs, hjob]
      rfl

/-- Claim C4 witness: instantiating the amended theorem on a Delivered job:
close_job grows the ledger by one entry and update_repair_job rewrites
the status to Repaired. -/
theorem C4_witness :
    (closeJob dbDelivered 1 500 200 700 "" [] "[]" ⟨2024, 1, 16⟩).ledger.length =
        dbDelivered.ledger.length + 1 ∧
      ((updateRepairJob dbDelivered 1 500 200 700 "" [] "Repaired" "[]"
          ⟨2024, 1, 16⟩).repairs.find? (fun j => j.id == 1)).map (·.status) =
        some "Repaired" := by
  have h := (C4_no_terminal_guard dbDelivered 1 500 200 700 "" [] "[]" ⟨2024, 1, 16⟩).2
    ⟨1, "Ali", "X100", "broken", "Delivered", "03", "2024-01-01 09:00:00",
      500, 200, 700, "", "[]", none, "2024-01-01", some "2024-01-10",
      some "2024-01-15", true⟩ (by decide)
  exact ⟨h.1, h.2 "Repaired" (by decide)⟩

/-- Claim C2 counterexample: update_repair_job stores the caller-supplied total
verbatim; called with service 1, parts 1 and total 999 it records a job
whose total_cost differs from service_cost plus parts_cost, so the
invariant does not hold after every write of the operation itself. -/
theorem C2_counterexample :
    ((updateRepairJob dbCost 1 1 1 999 "" [] "In Progress" "[]" ⟨2024, 1, 2⟩).repairs.map
        (fun j => (j.total_cost, j.service_cost, j.parts_cost)) = [(999, 1, 1)]) ∧
      ¬ costConsistent (updateRepairJob dbCost 1 1 1 999 "" [] "In Progress" "[]"
        ⟨2024, 1, 2⟩) := by
  decide

/-- Claim C2 amended: the write operations preserve the invariant total_cost =
service_cost + parts_cost exactly under the caller discipline of passing
total = service + parts — which every call site in the repository obeys,
computing total as parts cost plus labor; add_repair zeroes all three.
The operations themselves never recompute the total. -/
theorem C2_cost_invariant (db : DB) (hdb : costConsistent db) :
    (∀ cn mo iss st ph (asg dd : Option String) (ca sd : String),
       costConsistent (addRepair db cn mo iss st ph asg dd ca sd)) ∧
    (∀ rid (s p t : ℚ) ups pl ns pdj today, t = s + p →
       costConsistent (updateRepairJob db rid s p t ups pl ns pdj today)) ∧
    (∀ rid (s p t : ℚ) ups pl pdj today, t = s + p →
       costConsistent (closeJob db rid s p t ups pl pdj today)) := by
  have hclose : ∀ rid (s p t : ℚ) ups pl pdj today, t = s + p →
      costConsistent (closeJob db rid s p t ups pl pdj today) := by
    intro rid s p t ups pl pdj today ht j hj
    unfold closeJob at hj
    cases hfind : db.repairs.find? (fun j2 => j2.id == rid) with
    | none =>
      rw [hfind] at hj
      exact hdb j hj
    | some job =>
      rw [hfind] at hj
      rcases mem_updateFirst hj with hm | ⟨a, _, rfl⟩
      · exact hdb j hm
      · exact ht
  refine ⟨?_, ?_, hclose⟩
  · intro cn mo iss st ph asg dd ca sd j hj
    rcases List.mem_append.mp hj with hm | hnew
    · exact hdb j hm
    · have hj2 := List.mem_singleton.mp hnew
      subst hj2
      norm_num
  · intro rid s p t ups pl ns pdj today ht
    by_cases hns : ns = "Delivered"
    · intro j hj
      unfold updateRepairJob at hj
      rw [if_pos hns] at hj
      exact hclose rid s p t ups pl pdj today ht j hj
    · intro j hj
      unfold updateRepairJob at hj
      rw [if_neg hns] at hj
      cases hfind : db.repairs.find? (fun j2 => j2.id == rid) with
      | none =>
        rw [hfind] at hj
        exact hdb j hj
      | some job =>
        rw [hfind] at hj
        rcases mem_updateFirst hj with hm | ⟨a, _, rfl⟩
        · exact hdb j hm
        · exact ht

/-- Claim C2 witness: closing a consistent job with service 500, parts 200 and
total 700 keeps every stored row consistent. -/
theorem C2_witness :
    costConsistent (closeJob dbCost 1 500 200 700 "[]" [] "[]" ⟨2024, 1, 15⟩) :=
  (C2_cost_invariant dbCost (by decide)).2.2 1 500 200 700 "[]" [] "[]" ⟨2024, 1, 15⟩
    (by decide)

/-- Claim C1 counterexample: record_invoice applies the net stock change with
no clamp: invoicing five units of an item stocked with three leaves a
negative quantity, so the no-negative-quantity claim fails for
record_invoice. -/
theorem C1_counterexample :
    ((recordInvoice dbRecNeg "INV-2026-001" "Bob" [⟨"Fan Belt", 5, 500, 0, 2500⟩]
        0 0 2500 "2026-01-05 10:00:00" ⟨2026, 1, 5⟩).inventory.map (·.quantity) = [-2]) ∧
      ¬ ∀ it ∈ (recordInvoice dbRecNeg "INV-2026-001" "Bob" [⟨"Fan Belt", 5, 500, 0, 2500⟩]
        0 0 2500 "2026-01-05 10:00:00" ⟨2026, 1, 5⟩).inventory, 0 ≤ it.quantity := by
  decide

/-- Claim C1 amended: starting from nonnegative stock, close_job and
update_repair_job clamp every deduction at zero and sell_item guards the
decrement, so none of the three can produce a negative quantity;
record_invoice is excluded because its unclamped net change can. -/
theorem C1_clamped_deductions (db : DB) (hdb : ∀ it ∈ db.inventory, 0 ≤ it.quantity)
    (rid : Int) (s p t : ℚ) (ups : String) (pl : List Part) (ns pdj : String)
    (today : Date) (itemId : Int) (q : ℚ) (nowStr : String) :
    (∀ it ∈ (closeJob db rid s p t ups pl pdj today).inventory, 0 ≤ it.quantity) ∧
    (∀ it ∈ (updateRepairJob db rid s p t ups pl ns pdj today).inventory, 0 ≤ it.quantity) ∧
    (∀ it ∈ (sellItem db itemId q nowStr).1.inventory, 0 ≤ it.quantity) := by
  have hclose : ∀ it ∈ (closeJob db rid s p t ups pl pdj today).inventory,
      0 ≤ it.quantity := by
    intro it hit
    unfold closeJob at hit
    cases hfind : db.repairs.find? (fun j2 => j2.id == rid) with
    | none =>
      rw [hfind] at hit
      exact hdb it hit
    | some job =>
      rw [hfind] at hit
      exact deductParts_nonneg pl db.inventory hdb it hit
  refine ⟨hclose, ?_, ?_⟩
  · intro it hit
    by_cases hns : ns = "Delivered"
    · unfold updateRepairJob at hit
      rw [if_pos hns] at hit
      exact hclose it hit
    · unfold updateRepairJob at hit
      rw [if_neg hns] at hit
      cases hfind : db.repairs.find? (fun j2 => j2.id == rid) with
      | none =>
        rw [hfind] at hit
        exact hdb it hit
      | some job =>
        rw [hfind] at hit
        exact deductParts_nonneg pl db.inventory hdb it hit
  · intro it hit
    by_cases hie : db.inventory.isEmpty = true
    · unfold sellItem at hit
      rw [if_pos hie] at hit
      exact hdb it hit
    · unfold sellItem at hit
      rw [if_neg hie] at hit
      cases hfind : db.inventory.find? (fun it2 => it2.id == itemId) with
      | none =>
        rw [hfind] at hit
        exact hdb it hit
      | some item =>
        simp only [hfind] at hit
        by_cases hq : item.quantity < q
        · rw [if_pos hq] at hit
          exact hdb it hit
        · rw [if_neg hq] at hit
          rcases mem_updateFirst hit with hm | ⟨a, hfa, rfl⟩
          · exact hdb it hm
          · have ha : a = item := by
              rw [hfind] at hfa
              exact (Option.some.inj hfa).symm
            show 0 ≤ a.quantity - q
            rw [ha]
            linarith [le_of_not_lt hq]

/-- Claim C1 witness: from a stock of three, closing a job that consumes 99
units, an intermediate update with the same list, and a sale of two
units all leave every quantity nonnegative. -/
theorem C1_witness :
    (∀ it ∈ (closeJob dbClampW 1 500 200 700 "[]" [⟨1, 99⟩] "[]"
        ⟨2024, 1, 15⟩).inventory, 0 ≤ it.quantity) ∧
    (∀ it ∈ (updateRepairJob dbClampW 1 500 200 700 "[]" [⟨1, 99⟩] "In Progress" "[]"
        ⟨2024, 1, 15⟩).inventory, 0 ≤ it.quantity) ∧
    (∀ it ∈ (sellItem dbClampW 1 2 "2024-01-15 10:00:00").1.inventory, 0 ≤ it.quantity) :=
  C1_clamped_deductions dbClampW (by decide) 1 500 200 700 "[]" [⟨1, 99⟩] "In Progress"
    "[]" ⟨2024, 1, 15⟩ 1 2 "2024-01-15 10:00:00"

/-- Posting a ledger entry leaves the Repairs table untouched. -/
theorem addLedgerEntry_repairs (db : DB) (pn ds : String) (d c : ℚ)
    (dv : Option String) (ts : String) :
    (addLedgerEntry db pn ds d c dv ts).repairs = db.repairs := rfl

/-- The lateness flag is on exactly when the due date parses and falls
strictly before the completion date. -/
theorem lateFlag_iff (dd : Option String) (today : Date) :
    lateFlag dd today = true ↔
      ∃ d, dd.bind parseDate = some d ∧ dateLtB d today = true := by
  cases dd with
  | none => simp [lateFlag]
  | some s3 =>
    cases hpd : parseDate s3 with
    | none => simp [lateFlag, hpd]
    | some d => simp [lateFlag, hpd]

/-- Claim C6: a job closed via close_job is marked late exactly when its due
date is present, parses in the year-month-day format, and the completion
date (today) is strictly after it; a missing or unparseable due date, or
one on or after the completion date, leaves is_late false. -/
theorem C6_late_exactly_when_overdue (db : DB) (rid : Int) (s p t : ℚ) (ups : String)
    (pl : List Part) (pdj : String) (today : Date) (job : Repair)
    (hjob : db.repairs.find? (fun j => j.id == rid) = some job) :
    ((closeJob db rid s p t ups pl pdj today).repairs.find? (fun j => j.id == rid)).map
        (·.is_late) = some true ↔
      ∃ d, job.due_date.bind parseDate = some d ∧ dateLtB d today = true := by
  have hmain : ((closeJob db rid s p t ups pl pdj today).repairs.find?
      (fun j => j.id == rid)).map (·.is_late) = some (lateFlag job.due_date today) := by
    unfold closeJob
    simp only [hjob, addLedgerEntry_repairs]
    rw [find?_updateFirst_same (fun j : Repair => j.id == rid)
      (closedJobRow s p t ups pdj (lateFlag job.due_date today) (dateToString today))
      (fun a => rfl) db.repairs, hjob]
    rfl
  rw [hmain]
  simp only [Option.some.injEq]
  exact lateFlag_iff job.due_date today

/-- Claim C6 witness: a job due 2024-01-10 closed on 2024-01-15 is marked late. -/
theorem C6_witness :
    ((closeJob dbLate 1 500 200 700 "[]" [] "[]" ⟨2024, 1, 15⟩).repairs.find?
      (fun j => j.id == 1)).map (·.is_late) = some true := by
  have h := C6_late_exactly_when_overdue dbLate 1 500 200 700 "[]" [] "[]" ⟨2024, 1, 15⟩
    ⟨1, "Ali", "X100", "broken", "Pending", "03", "2024-01-01 09:00:00",
      0, 0, 0, "", "[]", none, "2024-01-01", some "2024-01-10", none, false⟩ (by decide)
  exact h.mpr ⟨⟨2024, 1, 10⟩, by decide, by decide⟩

/-- Claim C9: an intermediate (non-Delivered) save through update_repair_job on
an existing job deducts stock immediately: the inventory item matched by
the unique part with its id drops by the qty of that part, clamped at zero —
and saving the same parts list a second time deducts it again. -/
theorem C9_intermediate_update_deducts (db : DB) (rid : Int) (s p t : ℚ) (ups : String)
    (pl : List Part) (ns pdj : String) (today : Date) (job : Repair) (part : Part)
    (hjob : db.repairs.find? (fun j => j.id == rid) = some job)
    (hns : ns ≠ "Delivered")
    (hpart : pl.filter (fun q2 => q2.id == part.id) = [part]) :
    (((updateRepairJob db rid s p t ups pl ns pdj today).inventory.find?
        (fun it => it.id == part.id)).map (·.quantity) =
      (db.inventory.find? (fun it => it.id == part.id)).map
        (fun it => max 0 (it.quantity - part.qty))) ∧
    (((updateRepairJob (updateRepairJob db rid s p t ups pl ns pdj today)
        rid s p t ups pl ns pdj today).inventory.find?
        (fun it => it.id == part.id)).map (·.quantity) =
      (db.inventory.find? (fun it => it.id == part.id)).map
        (fun it => max 0 (max 0 (it.quantity - part.qty) - part.qty))) := by
  have hstate : ∀ (db3 : DB) (job3 : Repair),
      db3.repairs.find? (fun j => j.id == rid) = some job3 →
      (updateRepairJob db3 rid s p t ups pl ns pdj today).inventory =
        deductParts pl db3.inventory := by
    intro db3 job3 hj3
    unfold updateRepairJob
    rw [if_neg hns]
    simp only [hj3]
  have hjob2 : (updateRepairJob db rid s p t ups pl ns pdj today).repairs.find?
      (fun j => j.id == rid) = some (updatedJobRow s p t ups pdj ns job) := by
    unfold updateRepairJob
    rw [if_neg hns]
    simp only [hjob]
    rw [find?_updateFirst_same (fun j : Repair => j.id == rid)
      (updatedJobRow s p t ups pdj ns) (fun a => rfl) db.repairs, hjob]
    rfl
  have h1 : ∀ (db3 : DB) (job3 : Repair),
      db3.repairs.find? (fun j => j.id == rid) = some job3 →
      ((updateRepairJob db3 rid s p t ups pl ns pdj today).inventory.find?
          (fun it => it.id == part.id)).map (·.quantity) =
        (db3.inventory.find? (fun it => it.id == part.id)).map
          (fun it => max 0 (it.quantity - part.qty)) := by
    intro db3 job3 hj3
    rw [hstate db3 job3 hj3, find?_deductParts_unique pl part db3.inventory hpart]
    cases db3.inventory.find? (fun it => it.id == part.id) <;> rfl
  refine ⟨h1 db job hjob, ?_⟩
  rw [h1 _ _ hjob2, hstate db job hjob,
    find?_deductParts_unique pl part db.inventory hpart]
  cases db.inventory.find? (fun it => it.id == part.id) <;> rfl

/-- Claim C9 witness: with three units of item 7 in stock, saving an in-progress
job consuming two units leaves one; saving the same parts list again
clamps down to zero. -/
theorem C9_witness :
    (((updateRepairJob dbParts 1 100 160 260 "[]" [⟨7, 2⟩] "In Progress" "[]"
        ⟨2024, 1, 2⟩).inventory.find? (fun it => it.id == 7)).map (·.quantity) =
      some 1) ∧
    (((updateRepairJob (updateRepairJob dbParts 1 100 160 260 "[]" [⟨7, 2⟩]
        "In Progress" "[]" ⟨2024, 1, 2⟩) 1 100 160 260 "[]" [⟨7, 2⟩] "In Progress" "[]"
        ⟨2024, 1, 2⟩).inventory.find? (fun it => it.id == 7)).map (·.quantity) =
      some 0) := by
  have h := C9_intermediate_update_deducts dbParts 1 100 160 260 "[]" [⟨7, 2⟩]
    "In Progress" "[]" ⟨2024, 1, 2⟩
    ⟨1, "Ali", "X100", "broken", "Pending", "03", "2024-01-01 09:00:00",
      0, 0, 0, "", "[]", none, "2024-01-01", none, none, false⟩
    ⟨7, 2⟩ (by decide) (by decide) (by decide)
  exact ⟨h.1.trans (by decide), h.2.trans (by decide)⟩

/-- Claim C7: get_next_invoice_number returns the year marker followed by the
zero-padded successor of the maximum numeric suffix among the invoice ids
of the current year, and falls back to the 001 default when no such
invoice exists or any suffix fails to convert. -/
theorem C7_next_invoice_number (sales : List Sale) (year : Int) :
    (currentYearInvoices sales year = [] ∨
        (currentYearInvoices sales year).mapM suffixNum = none →
      getNextInvoiceNumber sales year = yearPfx year ++ "001") ∧
    ∀ nums, currentYearInvoices sales year ≠ [] →
      (currentYearInvoices sales year).mapM suffixNum = some nums →
      ∃ M, M ∈ nums ∧ (∀ n ∈ nums, n ≤ M) ∧
        getNextInvoiceNumber sales year = yearPfx year ++ padZeros 3 (toString (M + 1)) := by
  constructor
  · intro h
    unfold getNextInvoiceNumber
    by_cases hs : sales.isEmpty
    · rw [if_pos hs]
    · rw [if_neg hs]
      rcases h with hc | hm
      · rw [hc]
        simp
      · by_cases hc : (currentYearInvoices sales year).isEmpty
        · rw [if_pos hc]
        · rw [if_neg hc, hm]
  · intro nums hne hsome
    refine ⟨nums.foldl max 0, ?_, fun n hn => mem_le_foldl_max nums 0 n hn, ?_⟩
    · have hnn : nums ≠ [] := mapM_option_ne_nil suffixNum _ nums hne hsome
      rcases foldl_max_mem nums 0 with h0 | hm
      · cases nums with
        | nil => exact absurd rfl hnn
        | cons n t =>
          have hn : n ≤ (n :: t).foldl max 0 :=
            mem_le_foldl_max _ 0 n (List.mem_cons_self n t)
          rw [h0] at hn
          have hn0 : n = 0 := Nat.le_zero.mp hn
          rw [h0, ← hn0]
          exact List.mem_cons_self n t
      · exact hm
    · have hs : ¬ sales.isEmpty = true := by
        intro habs
        have hnil : sales = [] := List.isEmpty_iff.mp habs
        rw [hnil] at hne
        exact hne rfl
      unfold getNextInvoiceNumber
      rw [if_neg hs]
      have hc : ¬ (currentYearInvoices sales year).isEmpty = true := by
        intro habs
        exact hne (List.isEmpty_iff.mp habs)
      rw [if_neg hc, hsome]

/-- Claim C7 witness: with invoices INV-2026-001 and INV-2026-007 on file, the
next number for 2026 is INV-2026-008. -/
theorem C7_witness : getNextInvoiceNumber dbInvoices.sales 2026 = "INV-2026-008" := by
  obtain ⟨M, hM, hmax, hres⟩ :=
    (C7_next_invoice_number dbInvoices.sales 2026).2 [1, 7] (by decide) (by decide)
  have h7 : 7 ≤ M := hmax 7 (by decide)
  have hM7 : M = 7 := by
    simp only [List.mem_cons, List.mem_singleton] at hM
    rcases hM with h | h
    · omega
    · rcases h with h | h
      · exact h
      · simp at h
  rw [hM7] at hres
  exact hres.trans (by decide)

/-- Claim C8 counterexample: with job 1 (created first, due 2024-01-05) and job
2 (created later, due 2024-12-31) both active, the query returns them in
created_at-descending order 2, 1 — not in the due-date-ascending order
1, 2 the claim states. -/
theorem C8_counterexample :
    ((getActiveRepairs dbActive).map (·.id) = [2, 1]) ∧
      ((activeJobsBySpec dbActive).map (·.id) = [1, 2]) ∧
      getActiveRepairs dbActive ≠ activeJobsBySpec dbActive := by
  decide

/-- Claim C8 amended: the active-jobs query returns exactly the jobs whose
status is not Delivered, ordered by created_at descending (newest-created
first, the order of get_all_repairs), not by due_date. -/
theorem C8_active_jobs (db : DB) :
    (∀ j, j ∈ getActiveRepairs db ↔ j ∈ db.repairs ∧ j.status ≠ "Delivered") ∧
      List.Sorted createdDesc (getActiveRepairs db) := by
  constructor
  · intro j
    unfold getActiveRepairs getAllRepairs
    rw [List.mem_filter]
    constructor
    · rintro ⟨hm, hs⟩
      exact ⟨(List.perm_insertionSort createdDesc db.repairs).mem_iff.mp hm,
        by simpa using hs⟩
    · rintro ⟨hm, hs⟩
      exact ⟨(List.perm_insertionSort createdDesc db.repairs).mem_iff.mpr hm,
        by simpa using hs⟩
  · unfold getActiveRepairs getAllRepairs
    exact List.Pairwise.filter _ (List.sorted_insertionSort createdDesc db.repairs)

/-- Shape of the ledger view: the optional opening row followed by the
projected party entries in stored order. -/
theorem getLedgerEntries_split (db : DB) (party : String) :
    getLedgerEntries db party =
      (if openingOf db party ≠ 0 then [obRow (openingOf db party)] else []) ++
        (partyEntries db party).map toLRow := by
  unfold getLedgerEntries
  by_cases h : openingOf db party ≠ 0
  · rw [if_pos h, if_pos h]
    rfl
  · rw [if_neg h, if_neg h]
    rfl

/-- Claim C3 counterexample: with entries stored in the order (date 2024-02-01,
id 1, debit 100) then (date 2024-01-01, id 2, debit 50), the balance the
view displays on the row of entry 2 is 150, while the claimed value for
that entry under (date, id)-ascending order is 50 — the view runs its
cumulative sum in stored order, not sorted order. -/
theorem C3_counterexample :
    displayedBalanceAfter dbLedgerOrd "Ali" 2 = some 150 ∧
      claimBalanceAfterSorted dbLedgerOrd "Ali" 2 = some 50 ∧
      displayedBalanceAfter dbLedgerOrd "Ali" 2 ≠
        claimBalanceAfterSorted dbLedgerOrd "Ali" 2 := by
  decide

/-- Claim C3 amended: in the displayed ledger of a party — the stored (insertion
order) entries of the party with the synthetic opening row prepended when
the opening balance b0 is nonzero (debit b0 when positive, credit of the
absolute value when negative) — the running balance shown after the i-th
stored entry equals b0 plus the debits minus the credits of the first i
stored entries up to and including it. The entries are not re-sorted by
(date, id). -/
theorem C3_running_balance (db : DB) (party : String) (i : Nat)
    (hi : i < (partyEntries db party).length) :
    (runBal (getLedgerEntries db party))[i + openOff db party]? =
      some (openingOf db party
        + (((partyEntries db party).take (i + 1)).map (·.debit)).sum
        - (((partyEntries db party).take (i + 1)).map (·.credit)).sum) := by
  unfold runBal openOff
  rw [getLedgerEntries_split]
  by_cases h : openingOf db party ≠ 0
  · rw [if_pos h, if_pos h, List.singleton_append]
    have hlen : i + 1 < (obRow (openingOf db party) ::
        (partyEntries db party).map toLRow).length := by
      simp only [List.length_cons, List.length_map]
      omega
    rw [runBalAux_get? _ 0 (i + 1) hlen]
    congr 1
    rw [List.take_succ_cons]
    have hsum : sumDC (obRow (openingOf db party) ::
        List.take (i + 1) ((partyEntries db party).map toLRow)) =
        (obRow (openingOf db party)).debit - (obRow (openingOf db party)).credit +
          sumDC (List.take (i + 1) ((partyEntries db party).map toLRow)) := by
      simp [sumDC]
    rw [hsum, obRow_dc _ h, ← List.map_take, sumDC_map_toLRow]
    ring
  · rw [if_neg h, if_neg h, List.nil_append]
    simp only [Nat.add_zero]
    have hlen : i < ((partyEntries db party).map toLRow).length := by
      simpa using hi
    rw [runBalAux_get? _ 0 i hlen]
    congr 1
    have hob : openingOf db party = 0 := by
      push_neg at h
      exact h
    rw [hob, ← List.map_take, sumDC_map_toLRow]
    ring

/-- Claim C3 witness: for a party with opening balance -70 and stored entries
(debit 100) then (credit 30), the balance displayed after the second
entry is -70 + 100 - 30 = 0. -/
theorem C3_witness :
    (runBal (getLedgerEntries dbLedgerW "Ali"))[1 + openOff dbLedgerW "Ali"]? =
      some 0 := by
  have h := C3_running_balance dbLedgerW "Ali" 1 (by decide)
  exact h.trans (by decide)

end InverterDash
